import Mathlib

/-!
Verification development for the mrunner experiment-deployment pipeline.

This file gives a shallow embedding of the core of the repository:
  - the deep-merge function `merge` of `mrunner/cli/mrunner_cli.py`
    (pure value semantics in `mergeVal`, and an explicit heap model
    `mergeH` for the mutation/aliasing questions),
  - the tail of the configuration-resolution pipeline in `doit`
    (overwrite pass, `overwrite_dict` pop, `--cpu` override, `env_update`),
  - the experiment-generation/limit logic of the `run` command,
  - the Slurm backend: scratch-directory derivation, resource-flag
    translation (`SlurmWrappersCmd`), and the remote-operation trace of
    `SlurmBackend.run`,
  - the Local backend: child-process environment construction and spawn,
  - backend dispatch by `backend_type`.
-/

/-- Python values as they occur in mrunner experiment records: integers,
strings, and (insertion-ordered) dictionaries with string keys.  Dicts are
modelled as association lists; Python dicts have unique keys, so `lookupKey`
(first match) is faithful. -/
inductive Val where
  | vint : Int → Val
  | vstr : String → Val
  | dict : List (String × Val) → Val
deriving Repr

/-- `d[k]` lookup on an association list (first match, as in a Python dict). -/
def lookupKey {α : Type} : List (String × α) → String → Option α
  | [], _ => none
  | (k, v) :: rest, key => if k = key then some v else lookupKey rest key

/-- The entries of `b` whose key does not occur in `a` (the `every_key`
iteration of `merge` visits these after the keys of `a`). -/
def bOnly (a : List (String × Val)) : List (String × Val) → List (String × Val)
  | [] => []
  | (k, v) :: rest =>
    if (lookupKey a k).isNone then (k, v) :: bOnly a rest else bOnly a rest

mutual

/-- `merge(a, b)` from `mrunner/cli/mrunner_cli.py`:
if both arguments are dicts, merge them key-wise (shared keys merged
recursively); otherwise return (a deep copy of) `b`.  Deep copies are
identities under value semantics; the heap model below covers the
mutation/aliasing behaviour.  Python iterates `a.keys() | b.keys()` in
unspecified set order and dict equality ignores order; we fix the order
"keys of `a`, then keys only in `b`". -/
def mergeVal : Val → Val → Val
  | .dict a, .dict b => .dict (mergeShared a b ++ bOnly a b)
  | _, b => b

/-- The entries of `a`, with values at keys shared with `b` merged
recursively (the `k in a_and_b` branch of the dict comprehension in
`merge`). -/
def mergeShared : List (String × Val) → List (String × Val) → List (String × Val)
  | [], _ => []
  | (k, va) :: rest, b =>
    (k, match lookupKey b k with
        | some vb => mergeVal va vb
        | none => va) :: mergeShared rest b

end

/-- `overwrite_using_overwrite_dict(d1, d2)` from `mrunner_cli.py`: just `merge`. -/
def overwrite_using_overwrite_dict (d1 d2 : Val) : Val :=
  mergeVal d1 d2

/-- `d.get(k, default)` on a Python dict. -/
def getD {α : Type} (d : List (String × α)) (k : String) (dflt : α) : α :=
  match lookupKey d k with
  | some v => v
  | none => dflt

/-- `d[k] = v` on a Python dict: replace the value at the first occurrence of
`k`, keeping its position; append `(k, v)` when `k` is absent. -/
def setKey {α : Type} : List (String × α) → String → α → List (String × α)
  | [], key, v => [(key, v)]
  | (k, w) :: rest, key, v =>
    if k = key then (k, v) :: rest else (k, w) :: setKey rest key v

/-- Remove every entry holding the given key (Python dicts have unique keys,
so this is `del d[k]` without the absence check). -/
def removeKey {α : Type} : List (String × α) → String → List (String × α)
  | [], _ => []
  | (k, v) :: rest, key =>
    if k = key then removeKey rest key else (k, v) :: removeKey rest key

/-- `d.pop(k)` on a Python dict: remove the key, failing (KeyError) when it
is absent. -/
def popKey {α : Type} (d : List (String × α)) (k : String) :
    Option (List (String × α)) :=
  match lookupKey d k with
  | some _ => some (removeKey d k)
  | none => none

/-- `d.update(u)` on Python dicts: write the entries of `u` into `d` in
order. -/
def dictUpdate {α : Type} (d u : List (String × α)) : List (String × α) :=
  u.foldl (fun acc kv => setKey acc kv.1 kv.2) d

/-- Lookup from the right: the value the *last* occurrence of a key holds. -/
def lookupLastKey {α : Type} : List (String × α) → String → Option α
  | [], _ => none
  | (k, v) :: rest, key =>
    match lookupLastKey rest key with
    | some w => some w
    | none => if k = key then some v else none

/-- `v` is not a Python dict. -/
def NotDict (v : Val) : Prop := ∀ es, v ≠ Val.dict es

/-- The key sets of two association lists do not intersect. -/
def DisjointKeys {α : Type} (a b : List (String × α)) : Prop :=
  ∀ k, (lookupKey a k).isSome → lookupKey b k = none

/-! ### Association-list lemmas -/

theorem lookupKey_append {α : Type} (l1 l2 : List (String × α)) (k : String) :
    lookupKey (l1 ++ l2) k =
      match lookupKey l1 k with
      | some v => some v
      | none => lookupKey l2 k := by
  induction l1 with
  | nil => simp [lookupKey]
  | cons hd tl ih =>
    obtain ⟨k', v'⟩ := hd
    by_cases h : k' = k <;> simp [lookupKey, h, ih]

theorem lookupKey_setKey {α : Type} (d : List (String × α)) (key : String)
    (v : α) (k : String) :
    lookupKey (setKey d key v) k =
      if key = k then some v else lookupKey d k := by
  induction d with
  | nil => simp [setKey, lookupKey]
  | cons hd tl ih =>
    obtain ⟨k', v'⟩ := hd
    by_cases h1 : k' = key
    · subst h1
      by_cases h2 : k' = k
      · subst h2
        simp [setKey, lookupKey]
      · have h3 : ¬ k' = k := h2
        simp [setKey, lookupKey, h3]
    · by_cases h2 : k' = k
      · subst h2
        have h3 : ¬ key = k' := fun h => h1 h.symm
        simp [setKey, lookupKey, h1, h3]
      · simp [setKey, lookupKey, h1, h2, ih]

theorem lookupKey_removeKey {α : Type} (d : List (String × α)) (key k : String) :
    lookupKey (removeKey d key) k =
      if k = key then none else lookupKey d k := by
  induction d with
  | nil => simp [removeKey, lookupKey]
  | cons hd tl ih =>
    obtain ⟨k', v'⟩ := hd
    by_cases h1 : k' = key
    · subst h1
      by_cases h2 : k' = k
      · subst h2
        simp [removeKey, ih]
      · have h3 : ¬ k = k' := fun h => h2 h.symm
        simp [removeKey, lookupKey, h2, h3, ih]
    · by_cases h2 : k' = k
      · subst h2
        have h3 : ¬ k' = key := h1
        simp [removeKey, lookupKey, h1, h3, ih]
      · simp [removeKey, lookupKey, h1, h2, ih]

theorem lookupKey_dictUpdate {α : Type} (u d : List (String × α)) (k : String) :
    lookupKey (dictUpdate d u) k =
      match lookupLastKey u k with
      | some v => some v
      | none => lookupKey d k := by
  induction u generalizing d with
  | nil => simp [dictUpdate, lookupLastKey]
  | cons hd tl ih =>
    obtain ⟨k', v'⟩ := hd
    show lookupKey (dictUpdate (setKey d k' v') tl) k = _
    rw [ih]
    cases htl : lookupLastKey tl k with
    | some w => simp [lookupLastKey, htl]
    | none =>
      by_cases h : k' = k <;>
        simp [lookupLastKey, htl, lookupKey_setKey, h]

theorem lookupKey_mergeShared (a b : List (String × Val)) (k : String) :
    lookupKey (mergeShared a b) k =
      match lookupKey a k with
      | some va =>
        some (match lookupKey b k with
              | some vb => mergeVal va vb
              | none => va)
      | none => none := by
  induction a with
  | nil => simp [mergeShared, lookupKey]
  | cons hd tl ih =>
    obtain ⟨k', va⟩ := hd
    by_cases h : k' = k <;> simp [mergeShared, lookupKey, h, ih]

theorem lookupKey_bOnly (a b : List (String × Val)) (k : String) :
    lookupKey (bOnly a b) k =
      match lookupKey a k with
      | some _ => none
      | none => lookupKey b k := by
  induction b with
  | nil => cases lookupKey a k <;> simp [bOnly, lookupKey]
  | cons hd tl ih =>
    obtain ⟨k', vb⟩ := hd
    cases ha' : lookupKey a k' with
    | none =>
      by_cases h : k' = k
      · subst h
        simp [bOnly, ha', lookupKey, ih]
      · simp [bOnly, ha', lookupKey, h, ih]
    | some w =>
      by_cases h : k' = k
      · subst h
        simp [bOnly, ha', lookupKey, ih]
      · simp [bOnly, ha', lookupKey, h, ih]

/-- Lookup in the result of the deep merge of two dicts: shared keys hold the
recursive merge of the two values, other keys hold the value of whichever
side has the key. -/
theorem lookupKey_merge (a b : List (String × Val)) (k : String) :
    lookupKey (mergeShared a b ++ bOnly a b) k =
      match lookupKey a k, lookupKey b k with
      | some va, some vb => some (mergeVal va vb)
      | some va, none => some va
      | none, some vb => some vb
      | none, none => none := by
  rw [lookupKey_append, lookupKey_mergeShared, lookupKey_bOnly]
  cases lookupKey a k <;> cases lookupKey b k <;> simp

theorem mergeVal_notDict_right (a b : Val) (h : NotDict b) :
    mergeVal a b = b := by
  cases a <;> cases b <;> first
    | rfl
    | exact absurd rfl (h _)

theorem mergeVal_notDict_left (a b : Val) (h : NotDict a) :
    mergeVal a b = b := by
  cases a <;> cases b <;> first
    | rfl
    | exact absurd rfl (h _)

theorem mem_lookupKey_isSome {α : Type} (l : List (String × α)) (k : String)
    (v : α) (h : (k, v) ∈ l) : (lookupKey l k).isSome := by
  induction l with
  | nil => simp at h
  | cons hd tl ih =>
    obtain ⟨k', v'⟩ := hd
    rcases List.mem_cons.mp h with h1 | h1
    · cases h1
      simp [lookupKey]
    · by_cases hk : k' = k <;> simp [lookupKey, hk, ih h1]

theorem mergeShared_disjoint (a b : List (String × Val))
    (h : DisjointKeys a b) : mergeShared a b = a := by
  induction a with
  | nil => rfl
  | cons hd tl ih =>
    obtain ⟨k, va⟩ := hd
    have hb : lookupKey b k = none := by
      apply h
      exact mem_lookupKey_isSome _ _ va (List.mem_cons_self _ _)
    have htl : DisjointKeys tl b := by
      intro k' hk'
      apply h
      unfold lookupKey
      by_cases hkk : k = k' <;> simp [hkk, hk']
    simp [mergeShared, hb, ih htl]

theorem bOnly_disjoint (a b : List (String × Val))
    (h : DisjointKeys b a) : bOnly a b = b := by
  induction b with
  | nil => rfl
  | cons hd tl ih =>
    obtain ⟨k, vb⟩ := hd
    have ha : lookupKey a k = none := by
      apply h
      exact mem_lookupKey_isSome _ _ vb (List.mem_cons_self _ _)
    have htl : DisjointKeys tl a := by
      intro k' hk'
      apply h
      unfold lookupKey
      by_cases hkk : k = k' <;> simp [hkk, hk']
    simp [bOnly, ha, ih htl]

theorem mergeVal_disjoint (a b : List (String × Val)) (h : DisjointKeys a b) :
    mergeVal (.dict a) (.dict b) = .dict (a ++ b) := by
  have h' : DisjointKeys b a := by
    intro k hk
    cases ha : lookupKey a k with
    | none => rfl
    | some v =>
      have := h k (by simp [ha])
      rw [this] at hk
      simp at hk
  show Val.dict (mergeShared a b ++ bOnly a b) = .dict (a ++ b)
  rw [mergeShared_disjoint a b h, bOnly_disjoint a b h']

theorem disjointKeys_append_left {α : Type} (a b c : List (String × α))
    (hac : DisjointKeys a c) (hbc : DisjointKeys b c) :
    DisjointKeys (a ++ b) c := by
  intro k hk
  rw [lookupKey_append] at hk
  cases ha : lookupKey a k with
  | some v => exact hac k (by simp [ha])
  | none =>
    rw [ha] at hk
    exact hbc k hk

theorem disjointKeys_append_right {α : Type} (a b c : List (String × α))
    (hab : DisjointKeys a b) (hac : DisjointKeys a c) :
    DisjointKeys a (b ++ c) := by
  intro k hk
  rw [lookupKey_append, hab k hk, hac k hk]

/-- The entry list of the deep merge of two dicts (the dict comprehension in
`merge`, in the fixed iteration order). -/
def mergeEntries (a b : List (String × Val)) : List (String × Val) :=
  mergeShared a b ++ bOnly a b

theorem mergeVal_dict (a b : List (String × Val)) :
    mergeVal (.dict a) (.dict b) = .dict (mergeEntries a b) := rfl

theorem lookupKey_mergeEntries (a b : List (String × Val)) (k : String) :
    lookupKey (mergeEntries a b) k =
      match lookupKey a k, lookupKey b k with
      | some va, some vb => some (mergeVal va vb)
      | some va, none => some va
      | none, some vb => some vb
      | none, none => none :=
  lookupKey_merge a b k

theorem disjointKeys_of_ne_singleton (k1 k2 : String) (v1 v2 : Val)
    (h : k1 ≠ k2) : DisjointKeys [(k1, v1)] [(k2, v2)] := by
  intro k hk
  by_cases h1 : k1 = k
  · subst h1
    have h2 : ¬ k2 = k1 := fun hh => h hh.symm
    simp [lookupKey, h2]
  · simp [lookupKey, h1] at hk

/-- C2: `merge(a, b)` merges two dicts key-wise, merging the values at
shared keys recursively; a collision where the right value is not a dict
(or the left is not) is won outright by the right value; the two concrete
examples from the spec hold; and on pairwise disjoint key sets the merge is
associative. -/
theorem C2_merge_deep_semantics :
    (∀ (a b : List (String × Val)) (k : String) (va vb : Val),
        lookupKey a k = some va → lookupKey b k = some vb →
        lookupKey (mergeEntries a b) k = some (mergeVal va vb)) ∧
    (∀ a b : Val, NotDict a ∨ NotDict b → mergeVal a b = b) ∧
    mergeVal (.dict [("a", .vint 1), ("b", .dict [("x", .vint 1)])])
        (.dict [("b", .dict [("y", .vint 2)]), ("c", .vint 3)])
      = .dict [("a", .vint 1), ("b", .dict [("x", .vint 1), ("y", .vint 2)]),
               ("c", .vint 3)] ∧
    mergeVal (.dict [("a", .vint 1)]) (.dict [("a", .vint 2)])
      = .dict [("a", .vint 2)] ∧
    (∀ a b c : List (String × Val),
        DisjointKeys a b → DisjointKeys b c → DisjointKeys a c →
        mergeVal (mergeVal (.dict a) (.dict b)) (.dict c)
          = mergeVal (.dict a) (mergeVal (.dict b) (.dict c))) := by
  refine ⟨?_, ?_, ?_, ?_, ?_⟩
  · intro a b k va vb ha hb
    rw [lookupKey_mergeEntries, ha, hb]
  · intro a b h
    rcases h with h | h
    · exact mergeVal_notDict_left a b h
    · exact mergeVal_notDict_right a b h
  · rfl
  · rfl
  · intro a b c hab hbc hac
    rw [mergeVal_disjoint a b hab, mergeVal_disjoint b c hbc,
        mergeVal_disjoint (a ++ b) c (disjointKeys_append_left a b c hac hbc),
        mergeVal_disjoint a (b ++ c) (disjointKeys_append_right a b c hab hac),
        List.append_assoc]

theorem C2_merge_deep_semantics_witness :
    lookupKey (mergeEntries [("k", Val.vint 1)] [("k", Val.vint 2)]) "k"
      = some (mergeVal (Val.vint 1) (Val.vint 2)) ∧
    mergeVal (Val.vint 1) (Val.vint 2) = Val.vint 2 ∧
    mergeVal (mergeVal (.dict [("a", Val.vint 1)]) (.dict [("b", Val.vint 2)]))
        (.dict [("c", Val.vint 3)])
      = mergeVal (.dict [("a", Val.vint 1)])
          (mergeVal (.dict [("b", Val.vint 2)]) (.dict [("c", Val.vint 3)])) :=
  ⟨C2_merge_deep_semantics.1 _ _ "k" _ _ rfl rfl,
   C2_merge_deep_semantics.2.1 _ _ (Or.inl fun _ h => Val.noConfusion h),
   C2_merge_deep_semantics.2.2.2.2 _ _ _
     (disjointKeys_of_ne_singleton _ _ _ _ (by decide))
     (disjointKeys_of_ne_singleton _ _ _ _ (by decide))
     (disjointKeys_of_ne_singleton _ _ _ _ (by decide))⟩

/-! ### The tail of `doit` (mrunner_cli.py): overwrite pass and later steps -/

/-- Modelled from the spec: `merge_experiment_parameters` lives in
`mrunner/experiment.py`, which is not among the provided sources.  Spec
section 4.2 gives its precedence order (lowest to highest): context
defaults, spec parameters, CLI overrides, each later source deep-merged
over the earlier ones.  `doit` calls it as
`merge_experiment_parameters(cli_kwargs_, neptune_config, context)`. -/
def merge_experiment_parameters
    (cli_kwargs neptune_config context : List (String × Val)) :
    List (String × Val) :=
  mergeEntries (mergeEntries context neptune_config) cli_kwargs

/-- Nested lookup `e[k1][k2]`, `none` when `e[k1]` is absent or not a dict. -/
def lookupPath2 (e : List (String × Val)) (k1 k2 : String) : Option Val :=
  match lookupKey e k1 with
  | some (.dict es) => lookupKey es k2
  | _ => none

/-- The tail of `doit` (`mrunner_cli.py` lines 273-285), given the record as
it stands before the overwrite pass and the `--cpu` CLI option:

    experiment = overwrite_using_overwrite_dict(experiment, experiment.get('overwrite_dict', dict()))
    experiment.pop('overwrite_dict')
    if cpu is not None:
        experiment['resources']['cpu'] = cpu
    experiment['env'].update(experiment.get('env_update', dict()))

`none` models a Python exception (KeyError / AttributeError). -/
def asEntries : Val → Option (List (String × Val))
  | .dict es => some es
  | _ => none

/-- Line 276-277: `if cpu is not None: experiment['resources']['cpu'] = cpu`. -/
def doitStepCpu (e2 : List (String × Val)) : Option Val →
    Option (List (String × Val))
  | some c =>
    match lookupKey e2 "resources" with
    | some (.dict resEntries) =>
      some (setKey e2 "resources" (.dict (setKey resEntries "cpu" c)))
    | _ => none
  | none => some e2

/-- Line 285: `experiment['env'].update(experiment.get('env_update', dict()))`. -/
def doitStepEnv (e3 : List (String × Val)) : Option (List (String × Val)) :=
  match lookupKey e3 "env" with
  | some (.dict envEntries) =>
    match getD e3 "env_update" (.dict []) with
    | .dict updEntries =>
      some (setKey e3 "env" (.dict (dictUpdate envEntries updEntries)))
    | _ => none
  | _ => none

def doitFinalize (experiment : List (String × Val)) (cpu : Option Val) :
    Option (List (String × Val)) :=
  (asEntries (overwrite_using_overwrite_dict (.dict experiment)
      (getD experiment "overwrite_dict" (.dict [])))).bind
    fun e1 => (popKey e1 "overwrite_dict").bind
      fun e2 => (doitStepCpu e2 cpu).bind doitStepEnv

/-- The record reaching line 274 of `mrunner_cli.py` in the counterexample:
its `overwrite_dict` sets `resources.cpu` to `8`. -/
def exC3 : List (String × Val) :=
  [("backend_type", .vstr "slurm"),
   ("resources", .dict [("cpu", .vint 1)]),
   ("env", .dict []),
   ("overwrite_dict", .dict [("resources", .dict [("cpu", .vint 8)])])]

/-- C3, counterexample: `overwrite_dict` sets `resources.cpu` to `8`, but
when the `--cpu` CLI override is given (here `"16"`), the step at line
276-277 — which runs *after* the overwrite pass — changes that key, so the
final record holds `"16"`, not `8`: `overwriteDict` does not always win
over CLI overrides, and a later step does change a key `overwriteDict`
set. -/
theorem C3_overwrite_precedence_counterexample :
    lookupKey exC3 "overwrite_dict"
      = some (.dict [("resources", .dict [("cpu", .vint 8)])]) ∧
    (doitFinalize exC3 (some (.vstr "16"))).bind
        (fun e => lookupPath2 e "resources" "cpu") = some (.vstr "16") ∧
    Val.vstr "16" ≠ Val.vint 8 :=
  ⟨rfl, rfl, fun h => Val.noConfusion h⟩

/-- C3, amended: `overwriteDict` wins over CLI overrides, spec parameters and
context defaults in the merge pass, is applied as the final *merge* pass,
and the `overwrite_dict` key is discarded afterwards — except that two later
steps can still change keys it set: the `--cpu` CLI flag (when given)
overrides `resources['cpu']` after the overwrite pass, and `env_update`
entries are written into `env` after it.  Formally: with the `--cpu` flag
unset, for any non-dict value `v` that `overwrite_dict` binds at a key `k`
other than `env` (whose value is rewritten by the `env_update` step), the
final record holds exactly `v` at `k` and no `overwrite_dict` key; and in
the (spec-modelled) `merge_experiment_parameters`, a CLI-override value
wins over spec parameters and context defaults, spec parameters win over
context defaults, and context defaults survive otherwise. -/
theorem C3_overwrite_precedence_amended :
    (∀ (e od : List (String × Val)) (k : String) (v : Val)
        (e' : List (String × Val)),
        lookupKey e "overwrite_dict" = some (.dict od) →
        lookupKey od k = some v → NotDict v →
        k ≠ "overwrite_dict" → k ≠ "env" →
        doitFinalize e none = some e' →
        lookupKey e' k = some v ∧ lookupKey e' "overwrite_dict" = none) ∧
    (∀ (cli np ctx : List (String × Val)) (k : String) (v : Val),
        lookupKey cli k = some v → NotDict v →
        lookupKey (merge_experiment_parameters cli np ctx) k = some v) ∧
    (∀ (cli np ctx : List (String × Val)) (k : String) (v : Val),
        lookupKey cli k = none → lookupKey np k = some v → NotDict v →
        lookupKey (merge_experiment_parameters cli np ctx) k = some v) ∧
    (∀ (cli np ctx : List (String × Val)) (k : String) (v : Val),
        lookupKey cli k = none → lookupKey np k = none →
        lookupKey ctx k = some v →
        lookupKey (merge_experiment_parameters cli np ctx) k = some v) := by
  refine ⟨?_, ?_, ?_, ?_⟩
  · intro e od k v e' h1 h2 h3 h4 h5 h6
    have e1def : overwrite_using_overwrite_dict (.dict e)
        (getD e "overwrite_dict" (.dict [])) = .dict (mergeEntries e od) := by
      simp [getD, h1, overwrite_using_overwrite_dict, mergeVal_dict]
    have hm1 : (lookupKey (mergeEntries e od) "overwrite_dict").isSome := by
      rw [lookupKey_mergeEntries, h1]
      cases lookupKey od "overwrite_dict" <;> simp
    have hpop : popKey (mergeEntries e od) "overwrite_dict"
        = some (removeKey (mergeEntries e od) "overwrite_dict") := by
      unfold popKey
      cases hx : lookupKey (mergeEntries e od) "overwrite_dict" with
      | some w => rfl
      | none => rw [hx] at hm1; simp at hm1
    unfold doitFinalize at h6
    rw [e1def] at h6
    simp only [asEntries, Option.some_bind] at h6
    rw [hpop] at h6
    simp only [Option.some_bind, doitStepCpu] at h6
    have hre : lookupKey (removeKey (mergeEntries e od) "overwrite_dict") k
        = some v := by
      rw [lookupKey_removeKey]
      rw [if_neg h4, lookupKey_mergeEntries, h2]
      cases he : lookupKey e k with
      | some va => simp [mergeVal_notDict_right va v h3]
      | none => simp
    have hro : lookupKey (removeKey (mergeEntries e od) "overwrite_dict")
        "overwrite_dict" = none := by
      rw [lookupKey_removeKey]
      simp
    unfold doitStepEnv at h6
    cases henv : lookupKey (removeKey (mergeEntries e od) "overwrite_dict")
        "env" with
    | none => rw [henv] at h6; simp at h6
    | some envv =>
      rw [henv] at h6
      cases envv with
      | vint n => simp at h6
      | vstr s => simp at h6
      | dict envEntries =>
        cases hupd : getD (removeKey (mergeEntries e od) "overwrite_dict")
            "env_update" (.dict []) with
        | vint n => rw [hupd] at h6; simp at h6
        | vstr s => rw [hupd] at h6; simp at h6
        | dict updEntries =>
          rw [hupd] at h6
          simp only [Option.some.injEq] at h6
          subst h6
          constructor
          · rw [lookupKey_setKey]
            rw [if_neg (fun h => h5 h.symm)]
            exact hre
          · rw [lookupKey_setKey]
            rw [if_neg (by decide)]
            exact hro
  · intro cli np ctx k v hcli hnv
    unfold merge_experiment_parameters
    rw [lookupKey_mergeEntries, hcli]
    cases ha : lookupKey (mergeEntries ctx np) k with
    | some va => simp [mergeVal_notDict_right va v hnv]
    | none => simp
  · intro cli np ctx k v hcli hnp hnv
    unfold merge_experiment_parameters
    rw [lookupKey_mergeEntries, hcli, lookupKey_mergeEntries, hnp]
    cases hc : lookupKey ctx k with
    | some vc => simp [mergeVal_notDict_right vc v hnv]
    | none => simp
  · intro cli np ctx k v hcli hnp hctx
    unfold merge_experiment_parameters
    rw [lookupKey_mergeEntries, hcli, lookupKey_mergeEntries, hnp, hctx]

/-- The input record for the C3 amended-claim witness. -/
def exC3w : List (String × Val) :=
  [("resources", .dict [("cpu", .vint 1)]),
   ("env", .dict []),
   ("overwrite_dict", .dict [("lr", .vint 7)])]

/-- The record `doitFinalize exC3w none` produces. -/
def exC3wOut : List (String × Val) :=
  [("resources", .dict [("cpu", .vint 1)]),
   ("env", .dict []),
   ("lr", .vint 7)]

theorem C3_overwrite_precedence_amended_witness :
    (lookupKey exC3wOut "lr" = some (.vint 7) ∧
      lookupKey exC3wOut "overwrite_dict" = none) ∧
    lookupKey (merge_experiment_parameters
      [("a", Val.vint 3)] [("a", Val.vint 2)] [("a", Val.vint 1)]) "a"
        = some (Val.vint 3) ∧
    lookupKey (merge_experiment_parameters
      [] [("a", Val.vint 2)] [("a", Val.vint 1)]) "a" = some (Val.vint 2) ∧
    lookupKey (merge_experiment_parameters
      [] [] [("a", Val.vint 1)]) "a" = some (Val.vint 1) :=
  ⟨C3_overwrite_precedence_amended.1 exC3w [("lr", .vint 7)] "lr" (.vint 7)
      exC3wOut rfl rfl (fun _ h => Val.noConfusion h) (by decide) (by decide)
      rfl,
   C3_overwrite_precedence_amended.2.1 _ _ _ "a" _ rfl
      (fun _ h => Val.noConfusion h),
   C3_overwrite_precedence_amended.2.2.1 _ _ _ "a" _ rfl rfl
      (fun _ h => Val.noConfusion h),
   C3_overwrite_precedence_amended.2.2.2 _ _ _ "a" _ rfl rfl rfl⟩

/-! ### Heap model of `merge`: mutation and aliasing behaviour

The pure `mergeVal` above abstracts Python's object identity away.  To
settle the mutation/aliasing questions we re-run the same code over an
explicit heap: objects live at addresses, dict values are references, and
`copy.deepcopy` allocates.  `merge` itself only reads its arguments and
allocates fresh dicts/copies, which is what the theorems below express. -/

/-- A Python object on the heap: an int, a str, or a dict whose values are
references (heap addresses). -/
inductive Obj where
  | intO : Int → Obj
  | strO : String → Obj
  | dictO : List (String × Nat) → Obj
deriving Repr

/-- A heap: the object at address `i` is `objs.get? i`; allocation appends
at the end (addresses are never reused). -/
structure Heap where
  objs : List Obj
deriving Repr

def Heap.next (h : Heap) : Nat := h.objs.length

def Heap.get (h : Heap) (a : Nat) : Option Obj := h.objs[a]?

def Heap.alloc (h : Heap) (o : Obj) : Heap × Nat :=
  (⟨h.objs ++ [o]⟩, h.objs.length)

/-- The addresses an object refers to. -/
def Obj.ptrs : Obj → List Nat
  | .intO _ => []
  | .strO _ => []
  | .dictO es => es.map Prod.snd

/-- The entries of `eb` whose key does not occur in `ea` (address version). -/
def ebOnly (ea : List (String × Nat)) : List (String × Nat) → List (String × Nat)
  | [] => []
  | (k, v) :: rest =>
    if (lookupKey ea k).isNone then (k, v) :: ebOnly ea rest else ebOnly ea rest

mutual

/-- `copy.deepcopy` on the heap: copy the object graph below an address
into freshly allocated objects.  `fuel` only bounds the recursion depth
(the Python original recurses on the object structure); every theorem
quantifies over it. -/
def deepcopy : Nat → Heap → Nat → Option (Heap × Nat)
  | 0, _, _ => none
  | fuel + 1, h, a =>
    match h.get a with
    | some (.intO n) => some (h.alloc (.intO n))
    | some (.strO s) => some (h.alloc (.strO s))
    | some (.dictO es) =>
      match deepcopyEntries fuel h es with
      | some (h1, es1) => some (h1.alloc (.dictO es1))
      | none => none
    | none => none

def deepcopyEntries : Nat → Heap → List (String × Nat) →
    Option (Heap × List (String × Nat))
  | 0, _, _ => none
  | _ + 1, h, [] => some (h, [])
  | fuel + 1, h, (k, a) :: rest =>
    match deepcopy fuel h a with
    | some (h1, a1) =>
      match deepcopyEntries fuel h1 rest with
      | some (h2, rest1) => some (h2, (k, a1) :: rest1)
      | none => none
    | none => none

end

mutual

/-- `merge(a, b)` of `mrunner_cli.py` run over the heap: when both
addresses hold dicts, build a *new* dict whose shared keys hold recursive
merges, whose `a`-only keys hold deep copies of `a`'s values and whose
`b`-only keys hold deep copies of `b`'s values; otherwise return
`deepcopy(b)`. -/
def mergeH : Nat → Heap → Nat → Nat → Option (Heap × Nat)
  | 0, _, _, _ => none
  | fuel + 1, h, a, b =>
    match h.get a, h.get b with
    | some (.dictO ea), some (.dictO eb) =>
      match mergeHShared fuel h ea eb with
      | some (h1, es1) =>
        match deepcopyEntries fuel h1 (ebOnly ea eb) with
        | some (h2, es2) => some (h2.alloc (.dictO (es1 ++ es2)))
        | none => none
      | none => none
    | some _, some _ => deepcopy fuel h b
    | _, _ => none

/-- The entries of `ea`, with shared keys recursively `mergeH`-ed against
`eb`'s value and `a`-only keys deep-copied. -/
def mergeHShared : Nat → Heap → List (String × Nat) → List (String × Nat) →
    Option (Heap × List (String × Nat))
  | 0, _, _, _ => none
  | _ + 1, h, [], _ => some (h, [])
  | fuel + 1, h, (k, a) :: rest, eb =>
    match (match lookupKey eb k with
           | some bb => mergeH fuel h a bb
           | none => deepcopy fuel h a) with
    | some (h1, a1) =>
      match mergeHShared fuel h1 rest eb with
      | some (h2, rest1) => some (h2, (k, a1) :: rest1)
      | none => none
    | none => none

end

/-- `h'` extends `h`: the heap only grew by allocations at the end. -/
def Heap.ExtendsH (h' h : Heap) : Prop := ∃ ext, h'.objs = h.objs ++ ext

/-- Every object sitting above `h` (at an address `≥ h.next`) in `h'`
points only to addresses above `h` (and below `h'.next`). -/
def FreshRegion (h h' : Heap) : Prop :=
  ∀ i, h.next ≤ i → ∀ o, h'.get i = some o →
    ∀ p ∈ o.ptrs, h.next ≤ p ∧ p < h'.next

/-- Reachability through dict entries on a heap. -/
inductive Reaches (h : Heap) : Nat → Nat → Prop where
  | refl : ∀ a, Reaches h a a
  | step : ∀ a es b c, h.get a = some (.dictO es) → b ∈ es.map Prod.snd →
      Reaches h b c → Reaches h a c

/-! ### Heap lemmas -/

theorem extendsH_refl (h : Heap) : h.ExtendsH h := ⟨[], by simp⟩

theorem extendsH_trans {h h1 h2 : Heap} (h21 : h2.ExtendsH h1)
    (h10 : h1.ExtendsH h) : h2.ExtendsH h := by
  obtain ⟨e1, he1⟩ := h21
  obtain ⟨e0, he0⟩ := h10
  exact ⟨e0 ++ e1, by rw [he1, he0, List.append_assoc]⟩

theorem extendsH_next_le {h h' : Heap} (hx : h'.ExtendsH h) :
    h.next ≤ h'.next := by
  obtain ⟨e, he⟩ := hx
  simp [Heap.next, he]

theorem extendsH_get_eq {h h' : Heap} (hx : h'.ExtendsH h) (i : Nat)
    (hi : i < h.next) : h'.get i = h.get i := by
  obtain ⟨e, he⟩ := hx
  show h'.objs[i]? = h.objs[i]?
  rw [he]
  exact List.getElem?_append_left hi

theorem heap_get_none {h : Heap} {i : Nat} (hi : h.next ≤ i) :
    h.get i = none := List.getElem?_eq_none hi

theorem alloc_extends (h : Heap) (o : Obj) : (h.alloc o).1.ExtendsH h :=
  ⟨[o], rfl⟩

theorem alloc_next (h : Heap) (o : Obj) : (h.alloc o).1.next = h.next + 1 := by
  simp [Heap.alloc, Heap.next]

theorem alloc_addr (h : Heap) (o : Obj) : (h.alloc o).2 = h.next := rfl

theorem alloc_get_new (h : Heap) (o : Obj) :
    (h.alloc o).1.get h.next = some o :=
  List.getElem?_concat_length _ _

theorem freshRegion_refl (h : Heap) : FreshRegion h h := by
  intro i hi o ho
  rw [heap_get_none hi] at ho
  cases ho

theorem freshRegion_compose {h h1 h2 : Heap} (x1 : h1.ExtendsH h)
    (f1 : FreshRegion h h1) (x2 : h2.ExtendsH h1) (f2 : FreshRegion h1 h2) :
    FreshRegion h h2 := by
  intro i hi o ho p hp
  by_cases hlt : i < h1.next
  · rw [extendsH_get_eq x2 i hlt] at ho
    have := f1 i hi o ho p hp
    exact ⟨this.1, lt_of_lt_of_le this.2 (extendsH_next_le x2)⟩
  · push_neg at hlt
    have := f2 i hlt o ho p hp
    exact ⟨le_trans (extendsH_next_le x1) this.1, this.2⟩

theorem freshRegion_alloc {h h1 : Heap} (_h10 : h1.ExtendsH h)
    (f : FreshRegion h h1) {o : Obj}
    (ho : ∀ p ∈ o.ptrs, h.next ≤ p ∧ p < h1.next) :
    FreshRegion h (h1.alloc o).1 := by
  intro i hi o' ho' p hp
  by_cases hlt : i < h1.next
  · rw [extendsH_get_eq (alloc_extends h1 o) i hlt] at ho'
    have := f i hi o' ho' p hp
    exact ⟨this.1, by rw [alloc_next]; omega⟩
  · by_cases heq2 : i = h1.next
    · subst heq2
      rw [alloc_get_new] at ho'
      injection ho' with ho2
      subst ho2
      have := ho p hp
      exact ⟨this.1, by rw [alloc_next]; omega⟩
    · have hge : (h1.alloc o).1.next ≤ i := by
        rw [alloc_next]
        omega
      rw [heap_get_none hge] at ho'
      cases ho'

/-- What a successful `deepcopy`/`mergeH` call guarantees: the heap only
grew, and the returned address is fresh. -/
def DCSpec (h h1 : Heap) (r : Nat) : Prop :=
  h1.ExtendsH h ∧ h.next ≤ r ∧ r < h1.next ∧ FreshRegion h h1

/-- What a successful `deepcopyEntries`/`mergeHShared` call guarantees: the
heap only grew, and every returned entry address is fresh. -/
def DCESpec (h h1 : Heap) (es1 : List (String × Nat)) : Prop :=
  h1.ExtendsH h ∧ (∀ kv ∈ es1, h.next ≤ kv.2 ∧ kv.2 < h1.next) ∧
    FreshRegion h h1

theorem dcespec_nil (h : Heap) : DCESpec h h [] :=
  ⟨extendsH_refl h, by simp, freshRegion_refl h⟩

theorem dcespec_cons {h h1 h2 : Heap} {a1 : Nat} {k : String}
    {rest1 : List (String × Nat)}
    (d1 : DCSpec h h1 a1) (d2 : DCESpec h1 h2 rest1) :
    DCESpec h h2 ((k, a1) :: rest1) := by
  obtain ⟨x1, le1, lt1, f1⟩ := d1
  obtain ⟨x2, b2, f2⟩ := d2
  refine ⟨extendsH_trans x2 x1, ?_, freshRegion_compose x1 f1 x2 f2⟩
  intro kv hkv
  rcases List.mem_cons.mp hkv with rfl | hkv
  · exact ⟨le1, lt_of_lt_of_le lt1 (extendsH_next_le x2)⟩
  · have := b2 kv hkv
    exact ⟨le_trans (extendsH_next_le x1) this.1, this.2⟩

theorem dcespec_append {h h1 h2 : Heap} {es1 es2 : List (String × Nat)}
    (d1 : DCESpec h h1 es1) (d2 : DCESpec h1 h2 es2) :
    DCESpec h h2 (es1 ++ es2) := by
  obtain ⟨x1, b1, f1⟩ := d1
  obtain ⟨x2, b2, f2⟩ := d2
  refine ⟨extendsH_trans x2 x1, ?_, freshRegion_compose x1 f1 x2 f2⟩
  intro kv hkv
  rcases List.mem_append.mp hkv with hkv | hkv
  · have := b1 kv hkv
    exact ⟨this.1, lt_of_lt_of_le this.2 (extendsH_next_le x2)⟩
  · have := b2 kv hkv
    exact ⟨le_trans (extendsH_next_le x1) this.1, this.2⟩

theorem dcspec_alloc_leaf {h : Heap} {o : Obj} (ho : o.ptrs = []) :
    DCSpec h (h.alloc o).1 (h.alloc o).2 := by
  refine ⟨alloc_extends h o, ?_, ?_, ?_⟩
  · rw [alloc_addr]
  · rw [alloc_addr, alloc_next]
    omega
  · apply freshRegion_alloc (extendsH_refl h) (freshRegion_refl h)
    intro p hp
    rw [ho] at hp
    cases hp

theorem dcspec_alloc_dict {h h1 : Heap} {es1 : List (String × Nat)}
    (d : DCESpec h h1 es1) :
    DCSpec h (h1.alloc (.dictO es1)).1 (h1.alloc (.dictO es1)).2 := by
  obtain ⟨x1, b1, f1⟩ := d
  refine ⟨extendsH_trans (alloc_extends h1 _) x1, ?_, ?_, ?_⟩
  · rw [alloc_addr]
    exact extendsH_next_le x1
  · rw [alloc_addr, alloc_next]
    omega
  · apply freshRegion_alloc x1 f1
    intro p hp
    obtain ⟨⟨k, q⟩, hmem, hq⟩ := List.mem_map.mp hp
    subst hq
    exact b1 (k, q) hmem

theorem deepcopy_spec : ∀ fuel : Nat,
    (∀ (h : Heap) (a : Nat) (res : Heap × Nat),
        deepcopy fuel h a = some res → DCSpec h res.1 res.2) ∧
    (∀ (h : Heap) (es : List (String × Nat))
        (res : Heap × List (String × Nat)),
        deepcopyEntries fuel h es = some res → DCESpec h res.1 res.2) := by
  intro fuel
  induction fuel with
  | zero =>
    constructor
    · intro h a res heq
      simp [deepcopy] at heq
    · intro h es res heq
      simp [deepcopyEntries] at heq
  | succ fuel ih =>
    obtain ⟨ihd, ihe⟩ := ih
    constructor
    · intro h a res heq
      unfold deepcopy at heq
      split at heq
      · injection heq with heq
        subst heq
        exact dcspec_alloc_leaf rfl
      · injection heq with heq
        subst heq
        exact dcspec_alloc_leaf rfl
      · split at heq
        · injection heq with heq
          subst heq
          rename_i es hg h1 es1 hde
          exact dcspec_alloc_dict (ihe _ _ _ hde)
        · exact absurd heq (by simp)
      · exact absurd heq (by simp)
    · intro h es res heq
      cases es with
      | nil =>
        unfold deepcopyEntries at heq
        injection heq with heq
        subst heq
        exact dcespec_nil h
      | cons kv rest =>
        obtain ⟨k, a⟩ := kv
        unfold deepcopyEntries at heq
        split at heq
        · split at heq
          · injection heq with heq
            subst heq
            rename_i x1 h1 a1 hda x2 h2 rest1 hde
            exact dcespec_cons (ihd _ _ _ hda) (ihe _ _ _ hde)
          · exact absurd heq (by simp)
        · exact absurd heq (by simp)

theorem mergeH_spec : ∀ fuel : Nat,
    (∀ (h : Heap) (a b : Nat) (res : Heap × Nat),
        mergeH fuel h a b = some res → DCSpec h res.1 res.2) ∧
    (∀ (h : Heap) (ea eb : List (String × Nat))
        (res : Heap × List (String × Nat)),
        mergeHShared fuel h ea eb = some res → DCESpec h res.1 res.2) := by
  intro fuel
  induction fuel with
  | zero =>
    constructor
    · intro h a b res heq
      simp [mergeH] at heq
    · intro h ea eb res heq
      simp [mergeHShared] at heq
  | succ fuel ih =>
    obtain ⟨ihm, ihs⟩ := ih
    constructor
    · intro h a b res heq
      unfold mergeH at heq
      split at heq
      · split at heq
        · split at heq
          · injection heq with heq
            subst heq
            rename_i x1 h1 es1 hms x2 h2 es2 hde
            exact dcspec_alloc_dict
              (dcespec_append (ihs _ _ _ _ hms)
                ((deepcopy_spec fuel).2 _ _ _ hde))
          · exact absurd heq (by simp)
        · exact absurd heq (by simp)
      · exact (deepcopy_spec fuel).1 _ _ _ heq
      · exact absurd heq (by simp)
    · intro h ea eb res heq
      cases ea with
      | nil =>
        unfold mergeHShared at heq
        injection heq with heq
        subst heq
        exact dcespec_nil h
      | cons kv rest =>
        obtain ⟨k, a⟩ := kv
        unfold mergeHShared at heq
        split at heq
        · split at heq
          · injection heq with heq
            subst heq
            rename_i x1 h1 a1 hcall x2 h2 rest1 hrec
            have d1 : DCSpec h h1 a1 := by
              split at hcall
              · exact ihm _ _ _ _ hcall
              · exact (deepcopy_spec fuel).1 _ _ _ hcall
            exact dcespec_cons d1 (ihs _ _ _ _ hrec)
          · exact absurd heq (by simp)
        · exact absurd heq (by simp)

theorem reaches_fresh {h h' : Heap} (f : FreshRegion h h') :
    ∀ r x, Reaches h' r x → h.next ≤ r → h.next ≤ x := by
  intro r x hrx
  induction hrx with
  | refl a => intro hr; exact hr
  | step a es b c hget hb hbc ih =>
    intro ha
    apply ih
    exact (f a ha (.dictO es) hget b hb).1

/-- C10: run over the explicit heap, `merge(a, b)` never writes to a
pre-existing address — in particular both input mappings (and everything
they reference) are unchanged after the merge — and every address reachable
from the result is freshly allocated, so the result shares no mutable
structure with `a` or `b`: every value placed in the result is a deep
copy. -/
theorem C10_merge_no_mutation_no_sharing (fuel : Nat) (h : Heap) (a b : Nat)
    (res : Heap × Nat) (heq : mergeH fuel h a b = some res) :
    (∀ i, i < h.next → res.1.get i = h.get i) ∧
    (∀ x, Reaches res.1 res.2 x → h.next ≤ x) := by
  obtain ⟨hx, hle, hlt, hf⟩ := (mergeH_spec fuel).1 h a b res heq
  constructor
  · intro i hi
    exact extendsH_get_eq hx i hi
  · intro x hrx
    exact reaches_fresh hf res.2 x hrx hle

/-- A concrete four-object heap: address 1 holds the dict `a = ⦃x: 1⦄`
(pointing at address 0), address 3 holds the dict `b = ⦃x: 2⦄` (pointing at
address 2). -/
def exHeap : Heap :=
  ⟨[.intO 1, .dictO [("x", 0)], .intO 2, .dictO [("x", 2)]]⟩

/-- The heap and address `mergeH 5 exHeap 1 3` produces: the four original
objects untouched, plus a fresh copy of `2` and a fresh result dict. -/
def exHeapOut : Heap × Nat :=
  (⟨[.intO 1, .dictO [("x", 0)], .intO 2, .dictO [("x", 2)],
     .intO 2, .dictO [("x", 4)]]⟩, 5)

theorem C10_merge_no_mutation_no_sharing_witness :
    (exHeapOut.1.get 1 = exHeap.get 1 ∧ exHeapOut.1.get 3 = exHeap.get 3) ∧
    exHeap.next ≤ exHeapOut.2 :=
  ⟨⟨(C10_merge_no_mutation_no_sharing 5 exHeap 1 3 exHeapOut rfl).1 1
      (by decide),
    (C10_merge_no_mutation_no_sharing 5 exHeap 1 3 exHeapOut rfl).1 3
      (by decide)⟩,
   (C10_merge_no_mutation_no_sharing 5 exHeap 1 3 exHeapOut rfl).2
      exHeapOut.2 (Reaches.refl exHeapOut.2)⟩

/-! ### Slurm backend: resource-flag translation (`SlurmWrappersCmd`) -/

/-- `int(self._getattr('ntasks') or 1)`: `ntasks` falls back to `1` when it
is Python-falsy (`None` or `0`). -/
def ntasksEff (ntasks : Option Int) : Int :=
  match ntasks with
  | none => 1
  | some n => if n = 0 then 1 else n

theorem ntasksEff_ne_zero (nt : Option Int) : ntasksEff nt ≠ 0 := by
  cases nt with
  | none => simp [ntasksEff]
  | some n => by_cases h : n = 0 <;> simp [ntasksEff, h]

/-- The flag group one `resources` entry contributes
(`SlurmWrappersCmd._resources_items`, one loop iteration).  Resource
quantities are carried as the strings `str(...)` renders them to;
`num_nodes` is `none` when Python-falsy (`_getattr` collapses falsy
attributes to `None`).  An unsupported key raises
`ValueError('Unsupported resource request: k=v')`, modelled as
`Except.error` carrying that message. -/
def resourceFlagGroup (ntasks num_nodes : Option Int)
    (resource_type resource_qty : String) : Except String (List String) :=
  if resource_type = "cpu" then
    .ok (["-c", resource_qty] ++
      (match num_nodes with
       | some nn => ["-N", toString nn]
       | none => []) ++
      (if ntasksEff ntasks ≠ 0 then ["-n", toString (ntasksEff ntasks)]
       else []))
  else if resource_type = "gpu" then
    .ok ["--gres", "gpu:" ++ resource_qty]
  else if resource_type = "mem" then
    .ok ["--mem", resource_qty]
  else
    .error ("Unsupported resource request: " ++ resource_type ++ "=" ++
      resource_qty)

/-- `_resources_items`: translate the `resources` mapping in iteration
order, aborting at the first unsupported key. -/
def resourcesItems (ntasks num_nodes : Option Int) :
    List (String × String) → Except String (List String)
  | [] => .ok []
  | (t, q) :: rest =>
    match resourceFlagGroup ntasks num_nodes t q with
    | .ok g =>
      match resourcesItems ntasks num_nodes rest with
      | .ok r => .ok (g ++ r)
      | .error msg => .error msg
    | .error msg => .error msg

/-- The flag group a supported key yields (total version, for stating that
each key contributes exactly one group). -/
def flagGroupOk (ntasks num_nodes : Option Int) (kv : String × String) :
    List String :=
  if kv.1 = "cpu" then
    ["-c", kv.2] ++
      (match num_nodes with
       | some nn => ["-N", toString nn]
       | none => []) ++
      (if ntasksEff ntasks ≠ 0 then ["-n", toString (ntasksEff ntasks)]
       else [])
  else if kv.1 = "gpu" then ["--gres", "gpu:" ++ kv.2]
  else if kv.1 = "mem" then ["--mem", kv.2]
  else []

/-- One flag group per `resources` entry, concatenated in order. -/
def concatGroups (ntasks num_nodes : Option Int) :
    List (String × String) → List String
  | [] => []
  | kv :: rest => flagGroupOk ntasks num_nodes kv ++
      concatGroups ntasks num_nodes rest

theorem resourceFlagGroup_supported (nt nn : Option Int) (t q : String)
    (h : t = "cpu" ∨ t = "gpu" ∨ t = "mem") :
    resourceFlagGroup nt nn t q = .ok (flagGroupOk nt nn (t, q)) := by
  rcases h with h | h | h <;> subst h <;>
    simp [resourceFlagGroup, flagGroupOk]

theorem resourcesItems_supported (nt nn : Option Int) :
    ∀ rs : List (String × String),
      (∀ kv ∈ rs, kv.1 = "cpu" ∨ kv.1 = "gpu" ∨ kv.1 = "mem") →
      resourcesItems nt nn rs = .ok (concatGroups nt nn rs) := by
  intro rs
  induction rs with
  | nil => intro _; rfl
  | cons kv rest ih =>
    intro h
    obtain ⟨t, q⟩ := kv
    have ht := h (t, q) (List.mem_cons_self _ _)
    have hrest := ih fun kv hkv => h kv (List.mem_cons_of_mem _ hkv)
    simp [resourcesItems, resourceFlagGroup_supported nt nn t q ht, hrest,
      concatGroups]

theorem resourcesItems_unsupported (nt nn : Option Int) :
    ∀ pre : List (String × String),
      (∀ kv ∈ pre, kv.1 = "cpu" ∨ kv.1 = "gpu" ∨ kv.1 = "mem") →
      ∀ (t q : String) (rest : List (String × String)),
        t ≠ "cpu" → t ≠ "gpu" → t ≠ "mem" →
        resourcesItems nt nn (pre ++ (t, q) :: rest)
          = .error ("Unsupported resource request: " ++ t ++ "=" ++ q) := by
  intro pre
  induction pre with
  | nil =>
    intro _ t q rest h1 h2 h3
    simp [resourcesItems, resourceFlagGroup, h1, h2, h3]
  | cons kv pre ih =>
    intro h t q rest h1 h2 h3
    obtain ⟨t0, q0⟩ := kv
    have ht0 := h (t0, q0) (List.mem_cons_self _ _)
    have hrest := ih (fun kv hkv => h kv (List.mem_cons_of_mem _ hkv))
      t q rest h1 h2 h3
    simp [resourcesItems, resourceFlagGroup_supported nt nn t0 q0 ht0, hrest]

/-- The fields of the Slurm experiment record `SlurmWrappersCmd.command`
reads.  Optional flag values are modelled post-truthiness (`_getattr`
collapses falsy attributes to `None`, and `_extend_cmd_items` skips falsy
values). -/
structure SlurmCmdExperiment where
  account : Option String
  log_output_path : Option String
  partition : Option String
  time : Option String
  ntasks : Option Int
  num_nodes : Option Int
  resources : List (String × String)
  experiment_scratch_dir : String

/-- `_extend_cmd_items(cmd_items, option, data_key, default)`: append
`[option, value]` when the value is truthy, else `[option, default]` when a
default is given, else nothing. -/
def extendCmdItems (cmdItems : List String) (opt : String)
    (value : Option String) (dflt : Option String) : List String :=
  match value with
  | some v => cmdItems ++ [opt, v]
  | none =>
    match dflt with
    | some d => cmdItems ++ [opt, d]
    | none => cmdItems

/-- `SlurmWrappersCmd.command`: `<cmd_type> [-A ...] [-o ...] [-p ...]
[-t ...] <resource flags> <script_path>`, joined with single spaces; the
`-o` default is `<experiment_scratch_dir>/slurm.log` exactly for `sbatch`. -/
def slurmCommand (e : SlurmCmdExperiment) (cmd_type script_path : String) :
    Except String String :=
  if cmd_type = "" then
    .error "Instantiate one of SlurmWrapperCmd subclasses"
  else
    let default_log_path :=
      if cmd_type = "sbatch" then
        some (e.experiment_scratch_dir ++ "/slurm.log")
      else none
    let items := [cmd_type]
    let items := extendCmdItems items "-A" e.account none
    let items := extendCmdItems items "-o" e.log_output_path default_log_path
    let items := extendCmdItems items "-p" e.partition none
    let items := extendCmdItems items "-t" e.time none
    match resourcesItems e.ntasks e.num_nodes e.resources with
    | .ok res => .ok (String.intercalate " " (items ++ res ++ [script_path]))
    | .error msg => .error msg

/-- C1: resource-flag translation emits exactly one flag group per
`resources` entry — `cpu` contributes `-c <qty>`, plus `-N <num_nodes>`
exactly when `num_nodes` is configured, plus `-n <ntasks>` with `ntasks`
defaulting to 1 when unset; `gpu` contributes `--gres gpu:<count>`; `mem`
contributes `--mem <value>` — and any other key fails with the
unsupported-resource error naming the offending key and value.  For
`resources = ⦃cpu: 2⦄` with `ntasks` and `num_nodes` unset, the built
command is `srun -c 2 -n 1 script.sh`: it contains `-c 2 -n 1` and no
node-count flag. -/
theorem C1_slurm_resource_translation :
    (∀ (nt nn : Option Int) (rs : List (String × String)),
        (∀ kv ∈ rs, kv.1 = "cpu" ∨ kv.1 = "gpu" ∨ kv.1 = "mem") →
        resourcesItems nt nn rs = .ok (concatGroups nt nn rs)) ∧
    (∀ q : String, resourcesItems none none [("cpu", q)]
        = .ok ["-c", q, "-n", "1"]) ∧
    (∀ (nt : Option Int) (nn : Int) (q : String),
        resourcesItems nt (some nn) [("cpu", q)]
          = .ok ["-c", q, "-N", toString nn, "-n",
                 toString (ntasksEff nt)]) ∧
    (∀ (nt nn : Option Int) (q : String),
        resourcesItems nt nn [("gpu", q)] = .ok ["--gres", "gpu:" ++ q]) ∧
    (∀ (nt nn : Option Int) (q : String),
        resourcesItems nt nn [("mem", q)] = .ok ["--mem", q]) ∧
    (∀ (nt nn : Option Int) (pre : List (String × String)),
        (∀ kv ∈ pre, kv.1 = "cpu" ∨ kv.1 = "gpu" ∨ kv.1 = "mem") →
        ∀ (t q : String) (rest : List (String × String)),
          t ≠ "cpu" → t ≠ "gpu" → t ≠ "mem" →
          resourcesItems nt nn (pre ++ (t, q) :: rest)
            = .error ("Unsupported resource request: " ++ t ++ "=" ++ q)) ∧
    slurmCommand ⟨none, none, none, none, none, none, [("cpu", "2")], "/s/e"⟩
        "srun" "script.sh" = .ok "srun -c 2 -n 1 script.sh" := by
  refine ⟨resourcesItems_supported, ?_, ?_, ?_, ?_,
    fun nt nn pre h => resourcesItems_unsupported nt nn pre h, ?_⟩
  · intro q
    rfl
  · intro nt nn q
    have h0 := ntasksEff_ne_zero nt
    simp [resourcesItems, resourceFlagGroup, h0]
  · intro nt nn q
    rfl
  · intro nt nn q
    rfl
  · rfl

theorem C1_slurm_resource_translation_witness :
    resourcesItems none none [("cpu", "4"), ("gpu", "2")]
      = .ok ["-c", "4", "-n", "1", "--gres", "gpu:2"] ∧
    resourcesItems none none [("cpu", "4"), ("tpu", "1")]
      = .error "Unsupported resource request: tpu=1" :=
  ⟨(C1_slurm_resource_translation.1 none none
      [("cpu", "4"), ("gpu", "2")] (by decide)).trans rfl,
   (C1_slurm_resource_translation.2.2.2.2.2.1 none none [("cpu", "4")]
      (by decide) "tpu" "1" [] (by decide) (by decide) (by decide)).trans
     rfl⟩

/-! ### Slurm scratch directories -/

def DEFAULT_SCRATCH_SUBDIR : String := "mrunner_scratch"

def SCRATCH_DIR_RANDOM_SUFIX_SIZE : Nat := 10

/-- Modelled from the spec: `id_generator` lives in
`mrunner/utils/namesgenerator.py`, which is not among the provided sources.
Per the spec it produces a random identifier of the requested size; the
randomness is modelled as a seed argument, from which `size` lowercase
letters are generated. -/
def id_generator (size : Nat) (seed : Nat) : String :=
  String.mk ((List.range size).map fun i => Char.ofNat (97 + (seed + i) % 26))

/-- `generate_project_scratch_dir` (slurm.py): `_slurm_scratch_dir /
(scratch_subdir or DEFAULT_SCRATCH_SUBDIR) / <user_id>_<project>`. -/
def generate_project_scratch_dir (slurm_scratch_dir scratch_subdir
    user_id project : String) : String :=
  slurm_scratch_dir ++ "/" ++
    (if scratch_subdir = "" then DEFAULT_SCRATCH_SUBDIR else scratch_subdir) ++
    "/" ++ (user_id ++ "_" ++ project)

/-- `generate_experiment_scratch_dir` (slurm.py): `<project scratch
dir>/<name>_<random id of SCRATCH_DIR_RANDOM_SUFIX_SIZE characters>`. -/
def generate_experiment_scratch_dir (slurm_scratch_dir scratch_subdir
    user_id project name : String) (seed : Nat) : String :=
  generate_project_scratch_dir slurm_scratch_dir scratch_subdir user_id
      project ++ "/" ++
    (name ++ "_" ++ id_generator SCRATCH_DIR_RANDOM_SUFIX_SIZE seed)

/-- C5, counterexample: the project scratch directory does *not* sit
directly under the scratch root — the code inserts a `scratch_subdir`
level, `mrunner_scratch` by default — and the random suffix has
`SCRATCH_DIR_RANDOM_SUFIX_SIZE = 10` characters, not 6. -/
theorem C5_scratch_paths_counterexample :
    generate_project_scratch_dir "/scratch" "" "u1" "proj"
      = "/scratch/mrunner_scratch/u1_proj" ∧
    generate_project_scratch_dir "/scratch" "" "u1" "proj"
      ≠ "/scratch/u1_proj" ∧
    (id_generator SCRATCH_DIR_RANDOM_SUFIX_SIZE 0).length = 10 ∧
    (10 : Nat) ≠ 6 :=
  ⟨rfl, by decide, rfl, by decide⟩

/-- C5, amended: `project_scratch_dir = slurm_scratch_dir/(scratch_subdir
or "mrunner_scratch")/<user_id>_<project>` and `experiment_scratch_dir =
project_scratch_dir/<name>_<random10>`, the random suffix having exactly
`SCRATCH_DIR_RANDOM_SUFIX_SIZE = 10` characters. -/
theorem C5_scratch_paths_amended (root sub uid proj name : String)
    (seed : Nat) :
    generate_experiment_scratch_dir root sub uid proj name seed
      = generate_project_scratch_dir root sub uid proj ++ "/" ++
        (name ++ "_" ++ id_generator SCRATCH_DIR_RANDOM_SUFIX_SIZE seed) ∧
    generate_project_scratch_dir root sub uid proj
      = root ++ "/" ++ (if sub = "" then "mrunner_scratch" else sub) ++
        "/" ++ (uid ++ "_" ++ proj) ∧
    (id_generator SCRATCH_DIR_RANDOM_SUFIX_SIZE seed).length
      = SCRATCH_DIR_RANDOM_SUFIX_SIZE := by
  refine ⟨rfl, rfl, ?_⟩
  simp [id_generator, SCRATCH_DIR_RANDOM_SUFIX_SIZE, String.length]

/-! ### Slurm backend run: remote-operation trace -/

/-- A remote operation `SlurmBackend.run` can perform over SSH:
`queryScratch` is the read-only `echo $SCRATCH`; `ensureDir` is a remote
`mkdir -p`; `upload` is an rsync put; `runCmd` is an arbitrary remote
command (archive extraction, submission). -/
inductive RemoteOp where
  | queryScratch
  | ensureDir (path : String)
  | upload (local_path remote_path : String)
  | runCmd (cmd : String)
deriving Repr

/-- The inputs determining the remote operations of one
`SlurmBackend.run` call. -/
structure SlurmRunExperiment where
  has_local_neptune_token : Bool
  token_local_path : String
  token_remote_parent : String
  token_remote_path : String
  experiment_scratch_dir : String
  storage_dir : String
  archive_local_path : String
  archive_remote_path : String
  script_local_path : String
  script_remote_path : String
  submission_command : String

/-- `ensure_directories`: remote `mkdir -p` for the experiment scratch
directory and the storage directory. -/
def slurmEnsureDirectories (e : SlurmRunExperiment) : List RemoteOp :=
  [.ensureDir e.experiment_scratch_dir, .ensureDir e.storage_dir]

/-- `deploy_neptune_token`: skipped entirely when there is no local
credential. -/
def slurmDeployNeptuneToken (e : SlurmRunExperiment) : List RemoteOp :=
  if e.has_local_neptune_token then
    [.ensureDir e.token_remote_parent,
     .upload e.token_local_path e.token_remote_path]
  else []

/-- `deploy_code`: upload the archive, extract and delete it remotely,
upload the submission script. -/
def slurmDeployCode (e : SlurmRunExperiment) : List RemoteOp :=
  [.upload e.archive_local_path e.experiment_scratch_dir,
   .runCmd ("tar xf " ++ e.archive_remote_path ++ " && rm " ++
     e.archive_remote_path),
   .upload e.script_local_path e.script_remote_path]

/-- The remote operations of `SlurmBackend.run` in order.  The
`echo $SCRATCH` query runs unconditionally (Python evaluates the
`experiment.get('slurm_scratch_dir', Path(self._fabric_run(...)))` default
argument eagerly, dry run or not); everything else is guarded by
`if not dry_run`. -/
def slurmRunTrace (dry_run : Bool) (e : SlurmRunExperiment) : List RemoteOp :=
  [RemoteOp.queryScratch] ++
    (if dry_run then []
     else slurmEnsureDirectories e ++ slurmDeployNeptuneToken e ++
       slurmDeployCode e ++ [.runCmd e.submission_command])

/-- C9: with `dry_run = True`, `SlurmBackend.run` performs none of the
remote side-effecting steps — no remote directory creation, no archive or
script upload, no tracking-token deployment, and no command execution (in
particular no submission); the only remote interaction is the read-only
`echo $SCRATCH` query. -/
theorem C9_dry_run_no_remote_side_effects (e : SlurmRunExperiment) :
    slurmRunTrace true e = [RemoteOp.queryScratch] ∧
    (∀ p, RemoteOp.ensureDir p ∉ slurmRunTrace true e) ∧
    (∀ lp rp, RemoteOp.upload lp rp ∉ slurmRunTrace true e) ∧
    (∀ c, RemoteOp.runCmd c ∉ slurmRunTrace true e) := by
  refine ⟨rfl, ?_, ?_, ?_⟩
  · intro p
    simp [slurmRunTrace]
  · intro lp rp
    simp [slurmRunTrace]
  · intro c
    simp [slurmRunTrace]

/-! ### Local backend (`LocalBackend.run`) -/

/-- The fields of the experiment record `LocalBackend.run` reads. -/
structure LocalExperiment where
  storage_dir : String
  neptune_yaml_path : String
  env : List (String × String)
  cmdCommand : String

/-- `pathlib` `/`: a join whose right operand is absolute discards the left
operand. -/
def pathJoin (a b : String) : String :=
  if b.startsWith "/" then b else a ++ "/" ++ b

/-- `generate_exp_dir_path` (local.py): note the doubled `storage_dir` in
`Path(experiment['storage_dir']) / experiment['storage_dir'] / s`. -/
def generate_exp_dir_path (e : LocalExperiment) (date random_id : String) :
    String :=
  pathJoin (pathJoin e.storage_dir e.storage_dir) (date ++ "_" ++ random_id)

/-- The environment `LocalBackend.run` hands the child process: `os.environ`
updated with `⦃NEPTUNE_YAML_PATH, EXP_DIR_PATH⦄` and *then* with the
experiment's own `env` mapping (that order is the point of claim C7). -/
def localRunEnv (osEnviron : List (String × String)) (e : LocalExperiment)
    (date random_id : String) : List (String × String) :=
  dictUpdate
    (dictUpdate osEnviron
      [("NEPTUNE_YAML_PATH", e.neptune_yaml_path),
       ("EXP_DIR_PATH", generate_exp_dir_path e date random_id)])
    e.env

/-- One `subprocess.call` the Local backend makes. -/
structure SpawnCall where
  cmd : String
  shell : Bool
  env : List (String × String)

/-- `LocalBackend.run`: spawns `experiment['cmd'].command` once, through a
shell, with the environment above, and returns Python `None` — the
`subprocess.call` return value (the child's exit code, `exitCode` here) is
discarded, not returned. -/
def localRun (osEnviron : List (String × String)) (e : LocalExperiment)
    (date random_id : String) (_exitCode : Int) :
    List SpawnCall × Option Int :=
  ([⟨e.cmdCommand, true, localRunEnv osEnviron e date random_id⟩], none)

/-- C6, counterexample: a child exiting with code 3 — `LocalBackend.run`
returns `None` (the `subprocess.call` result is dropped on line 38 of
local.py), so the exit code is *not* surfaced to the caller of `run`. -/
theorem C6_exit_code_counterexample :
    (localRun [] ⟨"/s", "cfg.yaml", [], "exit 3"⟩ "2026_10_12" "abc123" 3).2
      = none ∧
    (none : Option Int) ≠ some 3 :=
  ⟨rfl, by decide⟩

/-- C6, amended: the Local backend spawns the command exactly once, its
behaviour does not depend on the child's exit code (no retry, no
interpretation), but `run` returns `None`: the exit code is discarded
rather than surfaced to the caller. -/
theorem C6_exit_code_amended (osEnv : List (String × String))
    (e : LocalExperiment) (date rid : String) (ec1 ec2 : Int) :
    (localRun osEnv e date rid ec1).1.length = 1 ∧
    (localRun osEnv e date rid ec1).1 = (localRun osEnv e date rid ec2).1 ∧
    (localRun osEnv e date rid ec1).2 = none :=
  ⟨rfl, rfl, rfl⟩

/-- The child environment as claim C7 words it: current environment, then
the experiment's `env`, then the reserved tracking-config-path variable
applied last. -/
def localRunEnvClaimed (osEnviron : List (String × String))
    (e : LocalExperiment) : List (String × String) :=
  dictUpdate (dictUpdate osEnviron e.env)
    [("NEPTUNE_YAML_PATH", e.neptune_yaml_path)]

/-- The experiment of the C7 counterexample: its `env` itself binds
`NEPTUNE_YAML_PATH`. -/
def exC7 : LocalExperiment :=
  ⟨"/s", "cfg.yaml", [("NEPTUNE_YAML_PATH", "fromexp")], "echo hi"⟩

/-- C7, counterexample: the code applies the reserved tracking-config-path
variable *before* the experiment's `env` (local.py lines 34-35), so an
experiment `env` entry for `NEPTUNE_YAML_PATH` wins; under the claim's
order (reserved variable last) the reserved value would win. -/
theorem C7_env_order_counterexample :
    lookupKey (localRunEnv [] exC7 "d" "r") "NEPTUNE_YAML_PATH"
      = some "fromexp" ∧
    lookupKey (localRunEnvClaimed [] exC7) "NEPTUNE_YAML_PATH"
      = some "cfg.yaml" ∧
    ("fromexp" : String) ≠ "cfg.yaml" :=
  ⟨rfl, rfl, by decide⟩

/-- C7, amended: the child environment equals the current process
environment overlaid with the reserved tracking-config-path variable and
the experiment-directory variable, overlaid with the experiment's `env`
mapping — the experiment `env` applied last, winning collisions — and the
command `experiment['cmd'].command` is spawned once through a shell. -/
theorem C7_env_amended (osEnv : List (String × String)) (e : LocalExperiment)
    (date rid : String) (ec : Int) (k : String) :
    lookupKey (localRunEnv osEnv e date rid) k
      = (match lookupLastKey e.env k with
         | some v => some v
         | none =>
           match lookupLastKey
               [("NEPTUNE_YAML_PATH", e.neptune_yaml_path),
                ("EXP_DIR_PATH", generate_exp_dir_path e date rid)] k with
           | some v => some v
           | none => lookupKey osEnv k) ∧
    (localRun osEnv e date rid ec).1
      = [⟨e.cmdCommand, true, localRunEnv osEnv e date rid⟩] := by
  constructor
  · unfold localRunEnv
    rw [lookupKey_dictUpdate, lookupKey_dictUpdate]
    generalize lookupLastKey e.env k = o1
    generalize lookupLastKey
      [("NEPTUNE_YAML_PATH", e.neptune_yaml_path),
       ("EXP_DIR_PATH", generate_exp_dir_path e date rid)] k = o2
    cases o1 <;> cases o2 <;> rfl
  · rfl

/-! ### Backend dispatch (`doit`, mrunner_cli.py lines 287-292) -/

inductive BackendChoice where
  | kubernetes
  | slurm
  | localProcess
deriving Repr, DecidableEq

/-- The backend constructor table in `doit`: a Python dict lookup keyed by
`experiment['backend_type']` over exactly
`⦃kubernetes, slurm, local⦄`; an unrecognized key raises `KeyError(key)` —
the unknown-backend-type configuration failure of the spec's taxonomy —
modelled as `Except.error` naming the offending type. -/
def backendDispatch (backend_type : String) : Except String BackendChoice :=
  if backend_type = "kubernetes" then .ok .kubernetes
  else if backend_type = "slurm" then .ok .slurm
  else if backend_type = "local" then .ok .localProcess
  else .error backend_type

/-- C8: dispatch selects the backend strictly by `backend_type` among
`⦃local, slurm, kubernetes⦄`, with no default: every recognized value maps
to its backend and any other value fails with the configuration error
naming the unrecognized type. -/
theorem C8_dispatch_by_backend_type (bt : String) :
    (bt = "kubernetes" → backendDispatch bt = .ok .kubernetes) ∧
    (bt = "slurm" → backendDispatch bt = .ok .slurm) ∧
    (bt = "local" → backendDispatch bt = .ok .localProcess) ∧
    (bt ≠ "kubernetes" → bt ≠ "slurm" → bt ≠ "local" →
      backendDispatch bt = .error bt) := by
  refine ⟨?_, ?_, ?_, ?_⟩
  · intro h
    subst h
    rfl
  · intro h
    subst h
    rfl
  · intro h
    subst h
    rfl
  · intro h1 h2 h3
    simp [backendDispatch, h1, h2, h3]

theorem C8_dispatch_by_backend_type_witness :
    backendDispatch "local" = .ok .localProcess ∧
    backendDispatch "tpu-cloud" = .error "tpu-cloud" :=
  ⟨(C8_dispatch_by_backend_type "local").2.2.1 rfl,
   (C8_dispatch_by_backend_type "tpu-cloud").2.2.2 (by decide) (by decide)
     (by decide)⟩

/-! ### Experiment generation and the `--limit` path (`run`, mrunner_cli.py) -/

/-- An index-qualified tracking-artifact file name inside the neptune
output directory. -/
def artifactPath (outputDir : String) (i : Nat) : String :=
  outputDir ++ "/experiment_" ++ toString i ++ ".yaml"

/-- Modelled from the spec: `generate_experiments` lives in
`mrunner/experiment.py`, which is not among the provided sources.  Per spec
section 4.1 it yields one `(tracking artifact path, experiment spec)` pair
per spec, materializing a collision-free (index-qualified) artifact file
into the output directory for each yielded item.  The first component is
the yielded sequence, the second the artifact files written when the
sequence is consumed; specs are abstract (`Nat` suffices). -/
def generate_experiments (specs : List Nat) (outputDir : String) :
    List (String × Nat) × List String :=
  (specs.enum.map fun is => (artifactPath outputDir is.1, is.2),
   specs.enum.map fun is => artifactPath outputDir is.1)

/-- The generation-and-limit logic of the `run` command (mrunner_cli.py
lines 144-151, shuffle off): `experiments =
list(generate_experiments(...))` consumes the *whole* generator — writing
every artifact file — and only afterwards does `experiments =
experiments[:limit]` truncate the list. -/
def runSelect (specs : List Nat) (outputDir : String) (limit : Option Nat) :
    List (String × Nat) × List String :=
  let generated := generate_experiments specs outputDir
  (match limit with
   | some n => generated.1.take n
   | none => generated.1,
   generated.2)

/-- C4, counterexample: three specs with `--limit 1` — the artifact files
written number 3, not at most 1, because `run` materializes the full
generator with `list(...)` before slicing. -/
theorem C4_limit_counterexample :
    (runSelect [10, 20, 30] "/nep" (some 1)).1
      = [("/nep/experiment_0.yaml", 10)] ∧
    (runSelect [10, 20, 30] "/nep" (some 1)).2.length = 3 ∧
    ¬ (3 : Nat) ≤ 1 :=
  ⟨rfl, rfl, by decide⟩

/-- C4, amended: taking the first `N` items via `--limit` produces exactly
the experiments of the full sequence sliced to `N` (the code literally
generates everything and slices), but tracking-artifact files are created
for *every* generated experiment, regardless of the limit — the count
equals the number of specs, not at most `N`. -/
theorem C4_limit_amended (specs : List Nat) (dir : String) (n : Nat) :
    (runSelect specs dir (some n)).1
      = (generate_experiments specs dir).1.take n ∧
    (runSelect specs dir (some n)).2.length = specs.length ∧
    (runSelect specs dir none).1 = (generate_experiments specs dir).1 := by
  refine ⟨rfl, ?_, rfl⟩
  simp [runSelect, generate_experiments]
